import Mathlib

/-!
Verification of the Entity Resolution & Merge Pipeline of `lightrag-cv`.

This file gives a shallow embedding, in Lean 4, of the core Python modules
under `app/db_clean/`:

* `clean_merge_identify.py` — `normalize_entity_name`,
  `identify_duplicates_by_normalization` (same-type and cross-type modes);
* `cigref1_merge_identify.py` — `identify_duplicates_for_canonical`;
* `cigref2_merge_entities.py` — `load_merge_operations`, `retry_with_backoff`,
  `execute_merge_operations` and the report written by `main`;
* `clean_list.py` — `delete_with_retry` and the deletion statistics of `main`.

Modelling conventions:

* Python strings are Lean `String`s; Python's string comparison is
  lexicographic on code points, embedded as `pyStrLt` on `String.data`
  (Lean's built-in `String.ltb` is equivalent but does not reduce in the
  kernel, so we spell out the comparison).
* `str.lower()` is embedded for the basic-latin range (`lowerChar`); the
  entity names manipulated by the pipeline are ASCII, and no claim
  exercises non-ASCII case mapping.
* Python's `re.sub(r'[_\s\-]+', '', s)` deletes every character of the
  class, so it is embedded as a `filter`; the separator class is underscore,
  hyphen, and the Unicode whitespace code points matched by `\s`.
* `sorted(..., key=f, reverse=True)` is a stable descending sort; stable
  sorts for a total preorder have a unique result, so it is embedded as a
  stable insertion sort with the strict ascending comparator `sortKeyLt`.
* Python dicts iterate in key-insertion order; grouping dictionaries are
  embedded as a first-occurrence key list (`dedupFirst`) plus a `filter`
  per key, which reproduces both the grouping and the iteration order.
* Remote HTTP calls are an oracle (`LightRAGApi` / an attempt-indexed
  outcome function): attempt `i` of a retried call receives the oracle's
  `i`-th answer.  The executor returns, besides the report, the trace of the
  API calls it issued and of the back-off sleeps it performed.  Money
  delays (`float`) are embedded as `ℚ`; the schedule `1.0, 2.0, ...` is
  exact in binary floating point, so `ℚ` is faithful.
-/

/-! ### `normalize_entity_name` (clean_merge_identify.py lines 61-86,
    identically repeated in cigref1_merge_identify.py lines 58-83) -/

/-- Code points matched by Python's regex class `[_\s\-]`: the underscore
(95), the hyphen (45), and the Unicode whitespace characters matched by
`\s` on a `str` pattern. -/
def separatorCodes : List Nat :=
  [9, 10, 11, 12, 13, 28, 29, 30, 31, 32, 133, 160, 5760, 8192, 8193, 8194,
   8195, 8196, 8197, 8198, 8199, 8200, 8201, 8202, 8232, 8233, 8239, 8287,
   12288, 95, 45]

/-- One character of the separator class removed by `re.sub(r'[_\s\-]+', '', ·)`. -/
def isSeparatorChar (c : Char) : Bool :=
  separatorCodes.contains c.toNat

/-- `str.lower()` on one character, basic-latin range. -/
def lowerChar (c : Char) : Char :=
  if 65 ≤ c.toNat ∧ c.toNat ≤ 90 then Char.ofNat (c.toNat + 32) else c

/-- `normalize_entity_name`: lowercase, then delete every separator
character (deleting each run `[_\s\-]+` is deleting each character). -/
def normalize_entity_name (s : String) : String :=
  String.mk ((s.data.map lowerChar).filter (fun c => !isSeparatorChar c))

theorem toNat_ofNat_valid {n : Nat} (h : n.isValidChar) : (Char.ofNat n).toNat = n := by
  simp only [Char.ofNat, h, dif_pos, Char.ofNatAux, Char.toNat, UInt32.toNat,
    BitVec.toNat_ofNatLt]

theorem lowerChar_toNat (c : Char) :
    (lowerChar c).toNat = if 65 ≤ c.toNat ∧ c.toNat ≤ 90 then c.toNat + 32 else c.toNat := by
  unfold lowerChar
  split
  · next h =>
    have hv : (c.toNat + 32).isValidChar := by
      left
      omega
    rw [toNat_ofNat_valid hv]
  · rfl

theorem lowerChar_eq_self {c : Char} (h : ¬(65 ≤ c.toNat ∧ c.toNat ≤ 90)) :
    lowerChar c = c := by
  unfold lowerChar
  rw [if_neg h]

theorem lowerChar_idem (c : Char) : lowerChar (lowerChar c) = lowerChar c := by
  by_cases h : 65 ≤ c.toNat ∧ c.toNat ≤ 90
  · have h1 : (lowerChar c).toNat = c.toNat + 32 := by
      rw [lowerChar_toNat, if_pos h]
    exact lowerChar_eq_self (by omega)
  · rw [lowerChar_eq_self h]
    exact lowerChar_eq_self h

theorem lowerChar_fixes_mem {l : List Char} {c : Char} (h : c ∈ l.map lowerChar) :
    lowerChar c = c := by
  rcases List.mem_map.mp h with ⟨a, _, rfl⟩
  exact lowerChar_idem a

/-- Claim C8: `normalize_entity_name` is a pure total function, idempotent on
every string, and case/separator-insensitive: the three spec examples all
normalize to `"applicationlifecycle"`, separator runs being removed entirely. -/
theorem claim_C8_normalize_idempotent_insensitive :
    (∀ s : String, normalize_entity_name (normalize_entity_name s) = normalize_entity_name s)
    ∧ normalize_entity_name "Application_Life_Cycle" = "applicationlifecycle"
    ∧ normalize_entity_name "application-life-cycle" = "applicationlifecycle"
    ∧ normalize_entity_name "APPLICATION LIFE CYCLE" = "applicationlifecycle" := by
  refine ⟨fun s => ?_, by decide, by decide, by decide⟩
  show String.mk ((((s.data.map lowerChar).filter (fun c => !isSeparatorChar c)).map
      lowerChar).filter (fun c => !isSeparatorChar c))
    = String.mk ((s.data.map lowerChar).filter (fun c => !isSeparatorChar c))
  have hmap : ((s.data.map lowerChar).filter (fun c => !isSeparatorChar c)).map lowerChar
      = (s.data.map lowerChar).filter (fun c => !isSeparatorChar c) := by
    have := List.map_congr_left (l := (s.data.map lowerChar).filter (fun c => !isSeparatorChar c))
      (f := lowerChar) (g := id)
      (fun a ha => lowerChar_fixes_mem (List.mem_of_mem_filter ha))
    rw [this, List.map_id]
  rw [hmap, List.filter_eq_self.mpr (fun a ha => (List.mem_filter.mp ha).2)]

/-! ### Entities and the duplicate groupers
    (clean_merge_identify.py lines 162-298, cigref1_merge_identify.py
    lines 202-268) -/

/-- One row returned by `fetch_cigref_entities` /
`fetch_entities_by_normalized_names`: entity name, entity type,
relationship count. -/
structure Entity where
  entity_name : String
  entity_type : String
  relationship_count : Nat
deriving DecidableEq

/-- Python string `<`: lexicographic comparison of code points. -/
def codesLt : List Char → List Char → Bool
  | [], [] => false
  | [], _ :: _ => true
  | _ :: _, [] => false
  | a :: as, b :: bs =>
    if a.toNat < b.toNat then true
    else if b.toNat < a.toNat then false
    else codesLt as bs

def pyStrLt (a b : String) : Bool :=
  codesLt a.data b.data

/-- Strict `<` on the sort key tuple `(relationship_count, entity_name)`
used by both groupers. -/
def sortKeyLt (a b : Entity) : Bool :=
  decide (a.relationship_count < b.relationship_count) ||
    (decide (a.relationship_count = b.relationship_count) && pyStrLt a.entity_name b.entity_name)

/-- Insert into a descending-sorted list, before the first element that is
not strictly greater: with `sortDesc` below this is the stable descending
sort computed by `sorted(entity_list, key=lambda x: (x["relationship_count"],
x["entity_name"]), reverse=True)` (stable sorts of a total preorder agree). -/
def insertDesc (x : Entity) : List Entity → List Entity
  | [] => [x]
  | y :: ys => if sortKeyLt x y then y :: insertDesc x ys else x :: y :: ys

def sortDesc : List Entity → List Entity
  | [] => []
  | x :: xs => insertDesc x (sortDesc xs)

/-- One merge operation of the plan file.  `entity_types_involved` is
present only in cross-type mode.  `relationship_counts` keeps the dict
comprehension's entries in sorted order (the dict keys collapse equal
names; no claim depends on that collapse). -/
structure MergeOperation where
  entity_to_change_into : String
  entities_to_change : List String
  relationship_counts : List (String × Nat)
  entity_type : String
  entity_types_involved : Option (List String)
  normalized_name : String
deriving DecidableEq

/-- First-occurrence deduplication: the key iteration order of a Python
dict built by successive `groups[key].append(...)`, and the element order
of `list(set(...))` (whose order CPython leaves unspecified). -/
def dedupFirst {α : Type} [DecidableEq α] (l : List α) : List α :=
  l.foldl (fun acc x => if x ∈ acc then acc else acc ++ [x]) []

/-- The entity list accumulated under one normalized key in cross-type
grouping (`groups[normalized_key].append(entity_with_norm)`). -/
def crossGroup (entities : List Entity) (key : String) : List Entity :=
  entities.filter (fun e => normalize_entity_name e.entity_name == key)

/-- The entity list accumulated under one `(normalized_key, entity_type)`
key in same-type grouping. -/
def typedGroup (entities : List Entity) (key : String × String) : List Entity :=
  entities.filter (fun e =>
    normalize_entity_name e.entity_name == key.1 && e.entity_type == key.2)

/-- The merge operation built for one cross-type group
(clean_merge_identify.py lines 195-251).  `target_entity_types = []` models
Python's falsy `None`/empty list.  The `[] => none` branch of the match is
unreachable (`sortDesc` preserves length). -/
def crossOpForKey (entities : List Entity) (target_entity_types : List String)
    (key : String) : Option MergeOperation :=
  let group := crossGroup entities key
  if 1 < group.length then
    match sortDesc group with
    | [] => none
    | c :: rest =>
      let canonical_entity := c.entity_name
      let canonical_type :=
        if target_entity_types.isEmpty then c.entity_type
        else
          match (c :: rest).filter (fun e => target_entity_types.contains e.entity_type) with
          | [] => c.entity_type
          | t :: _ => t.entity_type
      some
        { entity_to_change_into := canonical_entity
          entities_to_change :=
            ((c :: rest).filter (fun e => !(e.entity_name == canonical_entity))).map
              (fun e => e.entity_name)
          relationship_counts := (c :: rest).map (fun e => (e.entity_name, e.relationship_count))
          entity_type := canonical_type
          entity_types_involved := some (dedupFirst ((c :: rest).map (fun e => e.entity_type)))
          normalized_name := key }
  else none

/-- The merge operation built for one same-type group
(clean_merge_identify.py lines 272-296). -/
def sameOpForKey (entities : List Entity) (key : String × String) :
    Option MergeOperation :=
  let group := typedGroup entities key
  if 1 < group.length then
    match sortDesc group with
    | [] => none
    | c :: rest =>
      some
        { entity_to_change_into := c.entity_name
          entities_to_change := rest.map (fun e => e.entity_name)
          relationship_counts := (c :: rest).map (fun e => (e.entity_name, e.relationship_count))
          entity_type := key.2
          entity_types_involved := none
          normalized_name := key.1 }
  else none

/-- `identify_duplicates_by_normalization(entities, merge_across_types,
target_entity_types)`: group (by normalized key, or by key and type), keep
groups of size ≥ 2, sort each descending and build its operation. -/
def identify_duplicates_by_normalization (entities : List Entity)
    (merge_across_types : Bool) (target_entity_types : List String) :
    List MergeOperation :=
  if merge_across_types then
    (dedupFirst (entities.map (fun e => normalize_entity_name e.entity_name))).filterMap
      (crossOpForKey entities target_entity_types)
  else
    (dedupFirst (entities.map (fun e =>
        (normalize_entity_name e.entity_name, e.entity_type)))).filterMap
      (sameOpForKey entities)

/-- Python `dict.get` on the canonical maps of cigref1_merge_identify.py. -/
def lookupCanonical (m : List (String × String)) (k : String) : Option String :=
  (m.find? (fun p => p.1 == k)).map (fun p => p.2)

/-- `identify_duplicates_for_canonical(entities, canonical_entities,
canonical_entity_types)` (cigref1_merge_identify.py lines 202-268): the
database rows carry `normalized_name = normalize_entity_name(entity_name)`
precomputed by `fetch_entities_by_normalized_names`, so grouping is by that
key; groups whose key is missing from either canonical map (or maps to a
falsy empty string) are skipped; `entity_type` and `normalized_name` of the
operation come from the canonical maps. -/
def identify_duplicates_for_canonical (entities : List Entity)
    (canonical_entities canonical_entity_types : List (String × String)) :
    List MergeOperation :=
  (dedupFirst (entities.map (fun e => normalize_entity_name e.entity_name))).filterMap
    (fun nn =>
      match lookupCanonical canonical_entities nn,
            lookupCanonical canonical_entity_types nn with
      | some cname, some ctype =>
        if cname == "" || ctype == "" then none
        else
          let group := crossGroup entities nn
          if 1 < group.length then
            match sortDesc group with
            | [] => none
            | c :: rest =>
              some
                { entity_to_change_into := c.entity_name
                  entities_to_change := rest.map (fun e => e.entity_name)
                  relationship_counts :=
                    (c :: rest).map (fun e => (e.entity_name, e.relationship_count))
                  entity_type := ctype
                  entity_types_involved := none
                  normalized_name := cname }
          else none
      | _, _ => none)

/-! ### Helper lemmas on the sort and the grouping -/

theorem insertDesc_perm (x : Entity) (l : List Entity) :
    (insertDesc x l).Perm (x :: l) := by
  induction l with
  | nil => exact List.Perm.refl _
  | cons y ys ih =>
    unfold insertDesc
    split
    · exact ((ih.cons y).trans (List.Perm.swap x y ys))
    · exact List.Perm.refl _

theorem sortDesc_perm (l : List Entity) : (sortDesc l).Perm l := by
  induction l with
  | nil => exact List.Perm.refl _
  | cons x xs ih => exact (insertDesc_perm x (sortDesc xs)).trans (ih.cons x)

theorem mem_sortDesc {a : Entity} {l : List Entity} : a ∈ sortDesc l ↔ a ∈ l :=
  (sortDesc_perm l).mem_iff

theorem sortDesc_length (l : List Entity) : (sortDesc l).length = l.length :=
  (sortDesc_perm l).length_eq

theorem foldlDedup_mem {α : Type} [DecidableEq α] (l : List α) :
    ∀ (acc : List α) (a : α),
      a ∈ l.foldl (fun acc x => if x ∈ acc then acc else acc ++ [x]) acc ↔
        a ∈ acc ∨ a ∈ l := by
  induction l with
  | nil => simp
  | cons x xs ih =>
    intro acc a
    show a ∈ xs.foldl _ (if x ∈ acc then acc else acc ++ [x]) ↔ _
    rw [ih]
    by_cases hx : x ∈ acc
    · rw [if_pos hx]
      constructor
      · rintro (h | h)
        · exact Or.inl h
        · exact Or.inr (List.mem_cons_of_mem x h)
      · rintro (h | h)
        · exact Or.inl h
        · rcases List.mem_cons.mp h with rfl | h
          · exact Or.inl hx
          · exact Or.inr h
    · rw [if_neg hx]
      simp only [List.mem_append, List.mem_singleton, List.mem_cons]
      tauto

theorem foldlDedup_nodup {α : Type} [DecidableEq α] (l : List α) :
    ∀ acc : List α, acc.Nodup →
      (l.foldl (fun acc x => if x ∈ acc then acc else acc ++ [x]) acc).Nodup := by
  induction l with
  | nil => exact fun acc h => h
  | cons x xs ih =>
    intro acc hacc
    show (xs.foldl _ (if x ∈ acc then acc else acc ++ [x])).Nodup
    by_cases hx : x ∈ acc
    · rw [if_pos hx]
      exact ih acc hacc
    · rw [if_neg hx]
      refine ih _ ?_
      simp [List.nodup_append, hacc, hx]

theorem mem_dedupFirst {α : Type} [DecidableEq α] {l : List α} {a : α} :
    a ∈ dedupFirst l ↔ a ∈ l := by
  unfold dedupFirst
  rw [foldlDedup_mem]
  simp

theorem nodup_dedupFirst {α : Type} [DecidableEq α] (l : List α) :
    (dedupFirst l).Nodup :=
  foldlDedup_nodup l [] List.nodup_nil

theorem find?_eq_head_filter {α : Type} (p : α → Bool) (l : List α) :
    l.find? p = (l.filter p).head? := by
  induction l with
  | nil => rfl
  | cons x xs ih =>
    by_cases hx : p x
    · rw [List.find?_cons_of_pos _ hx, List.filter_cons_of_pos hx]
      rfl
    · rw [List.find?_cons_of_neg _ (by simpa using hx),
        List.filter_cons_of_neg (by simpa using hx), ih]

/-- Inversion of `crossOpForKey … = some op`. -/
theorem crossOpForKey_some {entities : List Entity} {targets : List String}
    {key : String} {op : MergeOperation}
    (h : crossOpForKey entities targets key = some op) :
    1 < (crossGroup entities key).length ∧
    ∃ c rest, sortDesc (crossGroup entities key) = c :: rest ∧
      op = { entity_to_change_into := c.entity_name
             entities_to_change :=
               ((c :: rest).filter (fun e => !(e.entity_name == c.entity_name))).map
                 (fun e => e.entity_name)
             relationship_counts :=
               (c :: rest).map (fun e => (e.entity_name, e.relationship_count))
             entity_type :=
               if targets.isEmpty then c.entity_type
               else
                 match (c :: rest).filter (fun e => targets.contains e.entity_type) with
                 | [] => c.entity_type
                 | t :: _ => t.entity_type
             entity_types_involved :=
               some (dedupFirst ((c :: rest).map (fun e => e.entity_type)))
             normalized_name := key } := by
  unfold crossOpForKey at h
  by_cases hlen : 1 < (crossGroup entities key).length
  · rw [if_pos hlen] at h
    refine ⟨hlen, ?_⟩
    rcases hs : sortDesc (crossGroup entities key) with _ | ⟨c, rest⟩
    · rw [hs] at h
      exact absurd h (by simp)
    · rw [hs] at h
      exact ⟨c, rest, rfl, (Option.some_injective _ h).symm⟩
  · rw [if_neg hlen] at h
    exact absurd h (by simp)

/-- Inversion of `sameOpForKey … = some op`. -/
theorem sameOpForKey_some {entities : List Entity} {key : String × String}
    {op : MergeOperation}
    (h : sameOpForKey entities key = some op) :
    1 < (typedGroup entities key).length ∧
    ∃ c rest, sortDesc (typedGroup entities key) = c :: rest ∧
      op = { entity_to_change_into := c.entity_name
             entities_to_change := rest.map (fun e => e.entity_name)
             relationship_counts :=
               (c :: rest).map (fun e => (e.entity_name, e.relationship_count))
             entity_type := key.2
             entity_types_involved := none
             normalized_name := key.1 } := by
  unfold sameOpForKey at h
  by_cases hlen : 1 < (typedGroup entities key).length
  · rw [if_pos hlen] at h
    refine ⟨hlen, ?_⟩
    rcases hs : sortDesc (typedGroup entities key) with _ | ⟨c, rest⟩
    · rw [hs] at h
      exact absurd h (by simp)
    · rw [hs] at h
      exact ⟨c, rest, rfl, (Option.some_injective _ h).symm⟩
  · rw [if_neg hlen] at h
    exact absurd h (by simp)

theorem mem_crossGroup {entities : List Entity} {key : String} {e : Entity} :
    e ∈ crossGroup entities key ↔ e ∈ entities ∧ normalize_entity_name e.entity_name = key := by
  unfold crossGroup
  rw [List.mem_filter]
  simp

theorem mem_typedGroup {entities : List Entity} {key : String × String} {e : Entity} :
    e ∈ typedGroup entities key ↔
      e ∈ entities ∧ normalize_entity_name e.entity_name = key.1 ∧ e.entity_type = key.2 := by
  unfold typedGroup
  rw [List.mem_filter]
  simp

/-! ### Claim C1 — canonical selection tie-break -/

/-- Claim C1 (evaluation at the spec's own input): both groupers sort with
`sorted(..., key=(relationship_count, entity_name), reverse=True)`, so
`reverse=True` also reverses the name tie-break — names tie DESCENDING, not
ascending as claimed.  On `[("CV_001","CV",5), ("cv_001","CV",1),
("Cv_001","CV",5)]` the survivor produced is `"Cv_001"` (the
lexicographically larger of the two tied names), not `"CV_001"`, in both
`identify_duplicates_by_normalization` and
`identify_duplicates_for_canonical`, contradicting the code's own inline
comment `Secondary: alphabetically first`. -/
theorem claim_C1_tiebreak_evaluation :
    identify_duplicates_by_normalization
        [⟨"CV_001", "CV", 5⟩, ⟨"cv_001", "CV", 1⟩, ⟨"Cv_001", "CV", 5⟩] false []
      = [{ entity_to_change_into := "Cv_001"
           entities_to_change := ["CV_001", "cv_001"]
           relationship_counts := [("Cv_001", 5), ("CV_001", 5), ("cv_001", 1)]
           entity_type := "CV"
           entity_types_involved := none
           normalized_name := "cv001" }]
    ∧ (identify_duplicates_for_canonical
        [⟨"CV_001", "CV", 5⟩, ⟨"cv_001", "CV", 1⟩, ⟨"Cv_001", "CV", 5⟩]
        [("cv001", "CV_001")] [("cv001", "CV")]).map
          (fun op => op.entity_to_change_into) = ["Cv_001"]
    ∧ ("Cv_001" : String) ≠ "CV_001" := by
  refine ⟨by decide, by decide, by decide⟩

/-! ### Claim C3 — preferred-type override in cross-type mode -/

/-- Claim C3 counterexample: with entities `[("X","P2",10), ("x","P1",1)]`
and `preferred_types = ["P1","P2"]`, both types are present in the group and
the first preferred type present in the preferred list's order is `"P1"`;
the code instead reports `entity_type = "P2"`, the type of the
highest-ranked group member whose type is preferred (the sort-order first,
not the preferred-list first). -/
theorem claim_C3_counterexample :
    identify_duplicates_by_normalization [⟨"X", "P2", 10⟩, ⟨"x", "P1", 1⟩] true ["P1", "P2"]
      = [{ entity_to_change_into := "X"
           entities_to_change := ["x"]
           relationship_counts := [("X", 10), ("x", 1)]
           entity_type := "P2"
           entity_types_involved := some ["P2", "P1"]
           normalized_name := "x" }]
    ∧ (∃ e ∈ [(⟨"X", "P2", 10⟩ : Entity), ⟨"x", "P1", 1⟩], e.entity_type = "P1")
    ∧ ("P2" : String) ≠ "P1" := by
  refine ⟨by decide, ⟨⟨"x", "P1", 1⟩, by decide, rfl⟩, by decide⟩

/-- Claim C3 as amended: in cross-type mode with a non-empty preferred-types
list, whenever some group member's type is preferred, the operation's
`entity_type` is the type of the FIRST group member IN THE GROUP'S SORT
ORDER whose type is preferred (`target_entities[0]["entity_type"]`) — not
the first preferred type in the preferred list's order — independent of
which entity supplies the survivor name; the spec's concrete scenario
`[("Programmer","person",2), ("PROGRAMMER","PROFILE",8)]` with
`preferred_types = ["PROFILE"]` holds as claimed. -/
theorem claim_C3_amended :
    (∀ (entities : List Entity) (targets : List String) (op : MergeOperation),
      op ∈ identify_duplicates_by_normalization entities true targets →
      targets.isEmpty = false →
      (∃ e ∈ crossGroup entities op.normalized_name, targets.contains e.entity_type) →
      ((sortDesc (crossGroup entities op.normalized_name)).find?
          (fun e => targets.contains e.entity_type)).map (fun e => e.entity_type)
        = some op.entity_type)
    ∧ identify_duplicates_by_normalization
        [⟨"Programmer", "person", 2⟩, ⟨"PROGRAMMER", "PROFILE", 8⟩] true ["PROFILE"]
      = [{ entity_to_change_into := "PROGRAMMER"
           entities_to_change := ["Programmer"]
           relationship_counts := [("PROGRAMMER", 8), ("Programmer", 2)]
           entity_type := "PROFILE"
           entity_types_involved := some ["PROFILE", "person"]
           normalized_name := "programmer" }] := by
  constructor
  · intro entities targets op hop hne hex
    unfold identify_duplicates_by_normalization at hop
    rw [if_pos rfl] at hop
    rcases List.mem_filterMap.mp hop with ⟨key, -, hk⟩
    rcases crossOpForKey_some hk with ⟨-, c, rest, hs, rfl⟩
    simp only at hex ⊢
    rw [hs, find?_eq_head_filter]
    rcases hf : (c :: rest).filter (fun e => targets.contains e.entity_type) with _ | ⟨t, ts⟩
    · rcases hex with ⟨e, he, het⟩
      have : e ∈ (c :: rest).filter (fun e => targets.contains e.entity_type) := by
        rw [List.mem_filter]
        exact ⟨hs ▸ mem_sortDesc.mpr (by simpa using he), het⟩
      rw [hf] at this
      exact absurd this (List.not_mem_nil e)
    · rw [hne, hf]
      simp
  · decide

/-- Witness for `claim_C3_amended` at the spec's cross-type scenario. -/
theorem claim_C3_amended_witness :
    ((sortDesc (crossGroup [⟨"Programmer", "person", 2⟩, ⟨"PROGRAMMER", "PROFILE", 8⟩]
          "programmer")).find?
        (fun e => (["PROFILE"] : List String).contains e.entity_type)).map
      (fun e => e.entity_type) = some "PROFILE" :=
  claim_C3_amended.1 [⟨"Programmer", "person", 2⟩, ⟨"PROGRAMMER", "PROFILE", 8⟩] ["PROFILE"]
    { entity_to_change_into := "PROGRAMMER"
      entities_to_change := ["Programmer"]
      relationship_counts := [("PROGRAMMER", 8), ("Programmer", 2)]
      entity_type := "PROFILE"
      entity_types_involved := some ["PROFILE", "person"]
      normalized_name := "programmer" }
    (by decide) (by decide) ⟨⟨"PROGRAMMER", "PROFILE", 8⟩, by decide, by decide⟩

/-! ### Claim C2 — partition invariant over the produced operations -/

/-- All entity names an operation touches: the survivor and the retirees. -/
def opNames (op : MergeOperation) : List String :=
  op.entity_to_change_into :: op.entities_to_change

theorem cross_opNames_key {entities : List Entity} {targets : List String}
    {key : String} {op : MergeOperation}
    (h : crossOpForKey entities targets key = some op) :
    ∀ n ∈ opNames op, normalize_entity_name n = key := by
  rcases crossOpForKey_some h with ⟨-, c, rest, hs, rfl⟩
  intro n hn
  rcases List.mem_cons.mp hn with rfl | hn
  · show normalize_entity_name c.entity_name = key
    have hc : c ∈ crossGroup entities key := by
      rw [← mem_sortDesc, hs]
      exact List.mem_cons_self c rest
    exact (mem_crossGroup.mp hc).2
  · simp only [opNames, List.mem_map] at hn
    rcases hn with ⟨e, he, rfl⟩
    have : e ∈ crossGroup entities key := by
      rw [← mem_sortDesc, hs]
      exact List.mem_of_mem_filter he
    exact (mem_crossGroup.mp this).2

theorem same_opNames_key {entities : List Entity} {key : String × String}
    {op : MergeOperation}
    (h : sameOpForKey entities key = some op) :
    (∀ n ∈ opNames op, normalize_entity_name n = key.1) ∧ op.entity_type = key.2 := by
  rcases sameOpForKey_some h with ⟨-, c, rest, hs, rfl⟩
  refine ⟨?_, rfl⟩
  intro n hn
  rcases List.mem_cons.mp hn with rfl | hn
  · show normalize_entity_name c.entity_name = key.1
    have hc : c ∈ typedGroup entities key := by
      rw [← mem_sortDesc, hs]
      exact List.mem_cons_self c rest
    exact (mem_typedGroup.mp hc).2.1
  · simp only [opNames, List.mem_map] at hn
    rcases hn with ⟨e, he, rfl⟩
    have : e ∈ typedGroup entities key := by
      rw [← mem_sortDesc, hs]
      exact List.mem_cons_of_mem c he
    exact (mem_typedGroup.mp this).2.1

/-- Claim C2 counterexample: in same-type mode the same entity name can
appear in two distinct operations, one per entity type.  With
`[("A","t1",2), ("a","t1",1), ("A","t2",2), ("a","t2",1)]` the grouper
produces two operations whose name sets are both `{"A", "a"}`. -/
theorem claim_C2_counterexample :
    identify_duplicates_by_normalization
        [⟨"A", "t1", 2⟩, ⟨"a", "t1", 1⟩, ⟨"A", "t2", 2⟩, ⟨"a", "t2", 1⟩] false []
      = [{ entity_to_change_into := "A"
           entities_to_change := ["a"]
           relationship_counts := [("A", 2), ("a", 1)]
           entity_type := "t1"
           entity_types_involved := none
           normalized_name := "a" },
         { entity_to_change_into := "A"
           entities_to_change := ["a"]
           relationship_counts := [("A", 2), ("a", 1)]
           entity_type := "t2"
           entity_types_involved := none
           normalized_name := "a" }]
    ∧ ¬ ((identify_duplicates_by_normalization
          [⟨"A", "t1", 2⟩, ⟨"a", "t1", 1⟩, ⟨"A", "t2", 2⟩, ⟨"a", "t2", 1⟩] false []).Pairwise
        (fun o1 o2 => ∀ n ∈ opNames o1, n ∉ opNames o2)) := by
  refine ⟨by decide, by decide⟩

/-- Claim C2 as amended: in cross-type mode the partition invariant holds
exactly as claimed (distinct operations have disjoint name sets, and every
entity of a group of size ≥ 2 appears in an operation).  In same-type mode
the invariant holds per entity type: operations of the same `entity_type`
have disjoint name sets, and every entity of a size ≥ 2 `(key, type)` group
appears in an operation of its own type; the same name may recur across
operations of different types. -/
theorem claim_C2_amended :
    ∀ (entities : List Entity) (targets : List String),
      ((identify_duplicates_by_normalization entities true targets).Pairwise
        (fun o1 o2 => ∀ n ∈ opNames o1, n ∉ opNames o2))
      ∧ (∀ e ∈ entities,
          1 < (crossGroup entities (normalize_entity_name e.entity_name)).length →
          ∃ op ∈ identify_duplicates_by_normalization entities true targets,
            e.entity_name ∈ opNames op)
      ∧ ((identify_duplicates_by_normalization entities false targets).Pairwise
        (fun o1 o2 => o1.entity_type = o2.entity_type →
          ∀ n ∈ opNames o1, n ∉ opNames o2))
      ∧ (∀ e ∈ entities,
          1 < (typedGroup entities (normalize_entity_name e.entity_name, e.entity_type)).length →
          ∃ op ∈ identify_duplicates_by_normalization entities false targets,
            op.entity_type = e.entity_type ∧ e.entity_name ∈ opNames op) := by
  intro entities targets
  refine ⟨?_, ?_, ?_, ?_⟩
  · unfold identify_duplicates_by_normalization
    rw [if_pos rfl]
    refine List.Pairwise.filterMap _ ?_ (nodup_dedupFirst _)
    intro k1 k2 hne op1 hop1 op2 hop2 n hn1 hn2
    rw [Option.mem_def] at hop1 hop2
    exact hne ((cross_opNames_key hop1 n hn1).symm.trans (cross_opNames_key hop2 n hn2))
  · intro e he hlen
    unfold identify_duplicates_by_normalization
    rw [if_pos rfl]
    set k := normalize_entity_name e.entity_name with hk
    have hkeys : k ∈ dedupFirst (entities.map (fun e => normalize_entity_name e.entity_name)) := by
      rw [mem_dedupFirst]
      exact List.mem_map.mpr ⟨e, he, rfl⟩
    have hsne : sortDesc (crossGroup entities k) ≠ [] := by
      intro hnil
      have := sortDesc_length (crossGroup entities k)
      rw [hnil] at this
      simp at this
      omega
    rcases hs : sortDesc (crossGroup entities k) with _ | ⟨c, rest⟩
    · exact absurd hs hsne
    have hop : crossOpForKey entities targets k
        = some { entity_to_change_into := c.entity_name
                 entities_to_change :=
                   ((c :: rest).filter (fun x => !(x.entity_name == c.entity_name))).map
                     (fun x => x.entity_name)
                 relationship_counts :=
                   (c :: rest).map (fun x => (x.entity_name, x.relationship_count))
                 entity_type :=
                   if targets.isEmpty then c.entity_type
                   else
                     match (c :: rest).filter (fun x => targets.contains x.entity_type) with
                     | [] => c.entity_type
                     | t :: _ => t.entity_type
                 entity_types_involved :=
                   some (dedupFirst ((c :: rest).map (fun x => x.entity_type)))
                 normalized_name := k } := by
      unfold crossOpForKey
      rw [if_pos hlen, hs]
    refine ⟨_, List.mem_filterMap.mpr ⟨k, hkeys, hop⟩, ?_⟩
    by_cases hn : e.entity_name = c.entity_name
    · rw [hn]
      exact List.mem_cons_self _ _
    · refine List.mem_cons_of_mem _ ?_
      simp only [List.mem_map]
      refine ⟨e, ?_, rfl⟩
      rw [List.mem_filter]
      constructor
      · rw [← hs, mem_sortDesc]
        exact mem_crossGroup.mpr ⟨he, rfl⟩
      · simpa using hn
  · unfold identify_duplicates_by_normalization
    rw [if_neg (by simp)]
    refine List.Pairwise.filterMap _ ?_ (nodup_dedupFirst _)
    intro k1 k2 hne op1 hop1 op2 hop2 htype n hn1 hn2
    rw [Option.mem_def] at hop1 hop2
    rcases same_opNames_key hop1 with ⟨hk1, ht1⟩
    rcases same_opNames_key hop2 with ⟨hk2, ht2⟩
    apply hne
    have h1 : k1.1 = k2.1 := (hk1 n hn1).symm.trans (hk2 n hn2)
    have h2 : k1.2 = k2.2 := ht1.symm.trans (htype.trans ht2)
    exact Prod.ext h1 h2
  · intro e he hlen
    unfold identify_duplicates_by_normalization
    rw [if_neg (by simp)]
    set k : String × String := (normalize_entity_name e.entity_name, e.entity_type) with hk
    have hkeys : k ∈ dedupFirst (entities.map (fun e =>
        (normalize_entity_name e.entity_name, e.entity_type))) := by
      rw [mem_dedupFirst]
      exact List.mem_map.mpr ⟨e, he, rfl⟩
    have hsne : sortDesc (typedGroup entities k) ≠ [] := by
      intro hnil
      have := sortDesc_length (typedGroup entities k)
      rw [hnil] at this
      simp at this
      omega
    rcases hs : sortDesc (typedGroup entities k) with _ | ⟨c, rest⟩
    · exact absurd hs hsne
    have hop : sameOpForKey entities k
        = some { entity_to_change_into := c.entity_name
                 entities_to_change := rest.map (fun x => x.entity_name)
                 relationship_counts :=
                   (c :: rest).map (fun x => (x.entity_name, x.relationship_count))
                 entity_type := k.2
                 entity_types_involved := none
                 normalized_name := k.1 } := by
      unfold sameOpForKey
      rw [if_pos hlen, hs]
    refine ⟨_, List.mem_filterMap.mpr ⟨k, hkeys, hop⟩, rfl, ?_⟩
    have hmem : e ∈ c :: rest := by
      rw [← hs, mem_sortDesc]
      exact mem_typedGroup.mpr ⟨he, rfl, rfl⟩
    rcases List.mem_cons.mp hmem with rfl | hmem
    · exact List.mem_cons_self _ _
    · exact List.mem_cons_of_mem _ (List.mem_map.mpr ⟨e, hmem, rfl⟩)

/-- Witness for `claim_C2_amended`: the cross-type coverage conjunct at a
concrete duplicate pair. -/
theorem claim_C2_amended_witness :
    ∃ op ∈ identify_duplicates_by_normalization
        [⟨"CV_001", "CV", 5⟩, ⟨"cv_001", "CV", 1⟩] true [],
      "CV_001" ∈ opNames op :=
  (claim_C2_amended [⟨"CV_001", "CV", 5⟩, ⟨"cv_001", "CV", 1⟩] []).2.1
    ⟨"CV_001", "CV", 5⟩ (by decide) (by decide)

/-! ### Plan loading (cigref2_merge_entities.py lines 45-76)

The JSON file is a list of objects; each object is embedded as an
association list with unique keys (`json.load` of a dict).  File-system
concerns (`FileNotFoundError`) are outside the embedding; the validation
loop over the parsed list is embedded in full. -/

inductive Json where
  | null
  | bool (b : Bool)
  | num (n : Int)
  | str (s : String)
  | arr (elems : List Json)
  | obj (fields : List (String × Json))

/-- One element of the loaded plan array, as a Python dict. -/
def PlanDict : Type := List (String × Json)

def dictHasKey (d : PlanDict) (k : String) : Bool :=
  d.any (fun p => p.1 == k)

def dictGet (d : PlanDict) (k : String) : Option Json :=
  (List.find? (fun p => p.1 == k) d).map (fun p => p.2)

def isJsonArr : Option Json → Bool
  | some (.arr _) => true
  | _ => false

/-- The first `ValueError` message raised for element `op` at index `idx`,
if any (quotes of the Python message omitted). -/
def planElementError (idx : Nat) (op : PlanDict) : Option String :=
  if !dictHasKey op "entity_to_change_into" then
    some ("Operation " ++ toString idx ++ ": missing entity_to_change_into")
  else if !dictHasKey op "entities_to_change" then
    some ("Operation " ++ toString idx ++ ": missing entities_to_change")
  else if !isJsonArr (dictGet op "entities_to_change") then
    some ("Operation " ++ toString idx ++ ": entities_to_change must be a list")
  else none

def validatePlanFrom : Nat → List PlanDict → Option String
  | _, [] => none
  | idx, op :: rest =>
    match planElementError idx op with
    | some msg => some msg
    | none => validatePlanFrom (idx + 1) rest

/-- `load_merge_operations` (validation part): every element is checked
before any is executed; on the first offending element a `ValueError`
naming its index is raised, otherwise the parsed operations are returned
unchanged. -/
def load_merge_operations (operations : List PlanDict) :
    Except String (List PlanDict) :=
  match validatePlanFrom 0 operations with
  | some msg => .error msg
  | none => .ok operations

/-! ### Retry with exponential backoff (cigref2_merge_entities.py
    lines 171-216)

The retried coroutine is embedded as an attempt-indexed outcome function
`f : Nat → Except ε α` (attempt numbers counted from 0; the source counts
`attempt` from 1). -/

inductive RetryResult (ε α : Type) where
  | ok (a : α)
  | err (e : ε)
  | noAttempt
deriving DecidableEq

/-- Result, back-off sleeps performed, and number of attempts issued. -/
structure RetryOutcome (ε α : Type) where
  result : RetryResult ε α
  sleeps : List ℚ
  attempts : Nat
deriving DecidableEq

/-- The `for attempt in range(1, max_attempts + 1)` loop: on failure of a
non-final attempt sleep `delay` and multiply `delay` by `backoff_factor`;
after a failing final attempt re-raise the last exception.
`RetryResult.noAttempt` is the `RuntimeError` raised when the loop body
never ran (`max_attempts = 0`). -/
def retryFrom (f : Nat → Except ε α) (backoff_factor : ℚ) :
    Nat → Nat → ℚ → RetryOutcome ε α
  | _, 0, _ => ⟨.noAttempt, [], 0⟩
  | attempt, remaining + 1, delay =>
    match f attempt with
    | .ok a => ⟨.ok a, [], 1⟩
    | .error e =>
      if remaining = 0 then ⟨.err e, [], 1⟩
      else
        let rest := retryFrom f backoff_factor (attempt + 1) remaining (delay * backoff_factor)
        ⟨rest.result, delay :: rest.sleeps, rest.attempts + 1⟩

/-- `retry_with_backoff(func, max_attempts, initial_delay, backoff_factor)`. -/
def retry_with_backoff (f : Nat → Except ε α) (max_attempts : Nat)
    (initial_delay backoff_factor : ℚ) : RetryOutcome ε α :=
  retryFrom f backoff_factor 0 max_attempts initial_delay

/-! ### The merge executor (cigref2_merge_entities.py lines 219-341) -/

/-- Response of `POST /graph/entities/merge`, with the fields the executor
reads (`response.get("message", "Success")`,
`response.get("data", {}).get("relationships_transferred", 0)`). -/
structure MergeResponse where
  message : Option String
  relationships_transferred : Option Nat
deriving DecidableEq

/-- Response of `POST /graph/entity/edit`, with the field the executor
reads (`update_response.get("message", "Updated")`). -/
structure EditResponse where
  message : Option String
deriving DecidableEq

/-- The remote LightRAG API as an oracle.  The trailing `Nat` is the
attempt index: attempt `i` of the retried call observes the oracle's `i`-th
answer; `.error msg` is the `aiohttp.ClientError` (or any exception) raised
by the client method, carrying `str(e)`. -/
structure LightRAGApi where
  merge : List String → String → Nat → Except String MergeResponse
  edit : String → String → String → Nat → Except String EditResponse

/-- An HTTP request issued by the executor. -/
inductive ApiCall where
  | mergeCall (entities_to_change : List String) (entity_to_change_into : String)
  | editCall (entity_name new_entity_name entity_type : String)
deriving DecidableEq

inductive OpStatus where
  | dry_run
  | success
  | failed
deriving DecidableEq

/-- Per-operation result record appended to `results["details"]`. -/
structure OpResult where
  entity_to_change_into : String
  entities_to_change : List String
  entity_type : String
  normalized_name : Option String
  status : OpStatus
  message : Option String
  relationships_transferred : Option Nat
  entity_updated : Bool
  update_message : Option String
deriving DecidableEq

/-- The fields of a plan element the executor reads:
`op["entity_to_change_into"]`, `op["entities_to_change"]`,
`op.get("entity_type", "UNKNOWN")`, `op.get("normalized_name")`. -/
structure ExecOp where
  entity_to_change_into : String
  entities_to_change : List String
  entity_type : Option String
  normalized_name : Option String
deriving DecidableEq

/-- An identify-phase operation as the executor sees it after the JSON
round trip. -/
def execOpOf (m : MergeOperation) : ExecOp :=
  { entity_to_change_into := m.entity_to_change_into
    entities_to_change := m.entities_to_change
    entity_type := some m.entity_type
    normalized_name := some m.normalized_name }

/-- Python truthiness of the `normalized_name` value: `None` and `""` are
falsy. -/
def truthyName : Option String → Bool
  | none => false
  | some s => !(s == "")

/-- Processing of one operation (loop body, lines 251-339): dry-run records
a `dry_run` result and issues no call; otherwise the merge is retried with
`initial_delay=1.0`, `backoff_factor=2.0` (the defaults — the call site
passes only `max_attempts`); on success, if `normalized_name` is truthy and
differs from `entity_to_change_into`, a follow-up edit call is retried the
same way, its failure being recorded as a non-fatal `update_message`;
exceptions surviving the merge retry mark the operation `failed` with the
last exception's message.  Returns the result record, the API calls issued
and the back-off sleeps performed (the fixed 0.5 s inter-operation pause is
not part of the back-off trace). -/
def executeOp (client : LightRAGApi) (retry_attempts : Nat) (dry_run : Bool)
    (op : ExecOp) : OpResult × List ApiCall × List ℚ :=
  let entity_type := op.entity_type.getD "UNKNOWN"
  let base : OpResult :=
    { entity_to_change_into := op.entity_to_change_into
      entities_to_change := op.entities_to_change
      entity_type := entity_type
      normalized_name := op.normalized_name
      status := .dry_run
      message := none
      relationships_transferred := none
      entity_updated := false
      update_message := none }
  if dry_run then
    ({ base with status := .dry_run, message := some "Dry run - not executed" }, [], [])
  else
    let ro := retry_with_backoff
      (client.merge op.entities_to_change op.entity_to_change_into) retry_attempts 1 2
    let mergeCalls := (List.range ro.attempts).map
      (fun _ => ApiCall.mergeCall op.entities_to_change op.entity_to_change_into)
    match ro.result with
    | .ok resp =>
      let r1 := { base with
        status := OpStatus.success
        message := some (resp.message.getD "Success")
        relationships_transferred := some (resp.relationships_transferred.getD 0) }
      match op.normalized_name with
      | some nn =>
        if !(nn == "") && !(nn == op.entity_to_change_into) then
          let eo := retry_with_backoff
            (client.edit op.entity_to_change_into nn entity_type) retry_attempts 1 2
          let editCalls := (List.range eo.attempts).map
            (fun _ => ApiCall.editCall op.entity_to_change_into nn entity_type)
          match eo.result with
          | .ok uresp =>
            ({ r1 with entity_updated := true,
                       update_message := some (uresp.message.getD "Updated") },
             mergeCalls ++ editCalls, ro.sleeps ++ eo.sleeps)
          | .err ue =>
            ({ r1 with entity_updated := false,
                       update_message := some ("Update failed: " ++ ue) },
             mergeCalls ++ editCalls, ro.sleeps ++ eo.sleeps)
          | .noAttempt =>
            ({ r1 with entity_updated := false,
                       update_message := some "Update failed: Retry failed without exception" },
             mergeCalls ++ editCalls, ro.sleeps ++ eo.sleeps)
        else (r1, mergeCalls, ro.sleeps)
      | none => (r1, mergeCalls, ro.sleeps)
    | .err e =>
      ({ base with status := OpStatus.failed, message := some e }, mergeCalls, ro.sleeps)
    | .noAttempt =>
      ({ base with status := OpStatus.failed,
                   message := some "Retry failed without exception" },
       mergeCalls, ro.sleeps)

/-- Sequential processing of the operation list.  The `batch_size` slicing
of the source groups operations for progress logging only (slices of step
`batch_size ≥ 1` concatenate back to the original list), so execution order
is the list order. -/
def executeList (client : LightRAGApi) (retry_attempts : Nat) (dry_run : Bool) :
    List ExecOp → List OpResult × List ApiCall × List ℚ
  | [] => ([], [], [])
  | op :: ops =>
    let res := executeOp client retry_attempts dry_run op
    let rest := executeList client retry_attempts dry_run ops
    (res.1 :: rest.1, res.2.1 ++ rest.2.1, res.2.2 ++ rest.2.2)

/-- The aggregate report `{total, successful, failed, details}`. -/
structure MergeReport where
  total : Nat
  successful : Nat
  failed : Nat
  details : List OpResult
deriving DecidableEq

def isSuccessStatus : OpStatus → Bool
  | .success => true
  | _ => false

def isFailedStatus : OpStatus → Bool
  | .failed => true
  | _ => false

/-- `execute_merge_operations(operations, client, batch_size,
retry_attempts, dry_run)`: the source increments `successful` exactly on
the operations whose recorded status is `success` and `failed` exactly on
those recorded `failed`, so the counters equal the corresponding filters of
`details`.  Returns the report, the API-call trace, and the back-off
sleeps. -/
def execute_merge_operations (client : LightRAGApi) (operations : List ExecOp)
    (retry_attempts : Nat) (dry_run : Bool) :
    MergeReport × List ApiCall × List ℚ :=
  let res := executeList client retry_attempts dry_run operations
  ({ total := operations.length
     successful := (res.1.filter (fun r => isSuccessStatus r.status)).length
     failed := (res.1.filter (fun r => isFailedStatus r.status)).length
     details := res.1 }, res.2.1, res.2.2)

/-- `main` (lines 467-470): the report file is saved only when `--dry-run`
was not given. -/
def main_saves_report (dry_run : Bool) : Bool :=
  !dry_run

/-! ### Claim C5 — structural validation of the merge plan -/

/-- What `load_merge_operations` actually checks of one element: the two
keys are present and `entities_to_change` is a list.  It does NOT check
that `entity_to_change_into` is a string, nor that it is non-empty. -/
def planElementValid (op : PlanDict) : Bool :=
  dictHasKey op "entity_to_change_into" && dictHasKey op "entities_to_change" &&
    isJsonArr (dictGet op "entities_to_change")

theorem planElementError_none_iff {idx : Nat} {op : PlanDict} :
    planElementError idx op = none ↔ planElementValid op = true := by
  unfold planElementError planElementValid
  by_cases h1 : dictHasKey op "entity_to_change_into" <;>
    by_cases h2 : dictHasKey op "entities_to_change" <;>
      by_cases h3 : isJsonArr (dictGet op "entities_to_change") <;>
        simp [h1, h2, h3]

theorem validatePlanFrom_none_iff :
    ∀ (l : List PlanDict) (idx : Nat),
      validatePlanFrom idx l = none ↔ ∀ op ∈ l, planElementValid op = true := by
  intro l
  induction l with
  | nil => simp [validatePlanFrom]
  | cons op rest ih =>
    intro idx
    unfold validatePlanFrom
    rcases he : planElementError idx op with _ | msg
    · have hv := planElementError_none_iff.mp he
      simp [ih, hv]
    · have hv : planElementValid op = false := by
        rcases hb : planElementValid op with _ | _
        · rfl
        · rw [planElementError_none_iff.mpr hb] at he
          exact absurd he (by simp)
      simp [hv]

theorem validatePlanFrom_first_error :
    ∀ (pre : List PlanDict) (idx : Nat) (bad : PlanDict) (rest : List PlanDict),
      (∀ op ∈ pre, planElementValid op = true) → planElementValid bad = false →
      validatePlanFrom idx (pre ++ bad :: rest) = planElementError (idx + pre.length) bad := by
  intro pre
  induction pre with
  | nil =>
    intro idx bad rest _ hbad
    rcases he : planElementError idx bad with _ | msg
    · exact absurd (planElementError_none_iff.mp he) (by simp [hbad])
    · show validatePlanFrom idx (bad :: rest) = _
      unfold validatePlanFrom
      rw [he]
      simp [he]
  | cons p pre ih =>
    intro idx bad rest hpre hbad
    show validatePlanFrom idx (p :: (pre ++ bad :: rest)) = _
    unfold validatePlanFrom
    rw [planElementError_none_iff.mpr (hpre p (List.mem_cons_self p pre))]
    rw [ih (idx + 1) bad rest (fun op hop => hpre op (List.mem_cons_of_mem p hop)) hbad]
    have hidx : idx + 1 + pre.length = idx + (p :: pre).length := by
      simp only [List.length_cons]
      omega
    rw [hidx]

/-- Claim C5 counterexample: an element whose `entity_to_change_into` is
the EMPTY string passes validation and is returned unchanged — the claimed
non-empty-string check does not exist (only key presence and the list shape
of `entities_to_change` are verified). -/
theorem claim_C5_counterexample :
    load_merge_operations
        [[("entity_to_change_into", Json.str ""), ("entities_to_change", Json.arr [])]]
      = .ok [[("entity_to_change_into", Json.str ""), ("entities_to_change", Json.arr [])]]
    ∧ dictGet [("entity_to_change_into", Json.str ""), ("entities_to_change", Json.arr [])]
        "entity_to_change_into" = some (Json.str "") :=
  ⟨rfl, rfl⟩

/-- Claim C5 as amended: loading validates every element before any is
executed, but the per-element check is only that the key
`entity_to_change_into` is present, the key `entities_to_change` is
present, and its value is an array (no string-ness or non-emptiness check
of `entity_to_change_into`); the first violation fails the whole load with
a `ValueError` naming the offending element's index, and a fully valid
plan is returned unchanged. -/
theorem claim_C5_amended :
    (∀ ops : List PlanDict,
      load_merge_operations ops = .ok ops ↔ ∀ op ∈ ops, planElementValid op = true)
    ∧ (∀ (pre : List PlanDict) (bad : PlanDict) (rest : List PlanDict),
        (∀ op ∈ pre, planElementValid op = true) → planElementValid bad = false →
        ∃ msg, planElementError pre.length bad = some msg ∧
          load_merge_operations (pre ++ bad :: rest) = .error msg) := by
  constructor
  · intro ops
    unfold load_merge_operations
    rcases hv : validatePlanFrom 0 ops with _ | msg
    · simp
      exact (validatePlanFrom_none_iff ops 0).mp hv
    · constructor
      · intro h
        exact absurd h (by simp)
      · intro h
        rw [(validatePlanFrom_none_iff ops 0).mpr h] at hv
        exact absurd hv (by simp)
  · intro pre bad rest hpre hbad
    have herr := validatePlanFrom_first_error pre 0 bad rest hpre hbad
    rcases he : planElementError (0 + pre.length) bad with _ | msg
    · exact absurd (planElementError_none_iff.mp he) (by simp [hbad])
    · refine ⟨msg, by simpa using he, ?_⟩
      unfold load_merge_operations
      rw [herr, he]

/-- Witness for `claim_C5_amended`: a valid element followed by an empty
dict (missing both keys) fails the load, naming index 1. -/
theorem claim_C5_amended_witness :
    ∃ msg,
      planElementError
          ([[("entity_to_change_into", Json.str "A"), ("entities_to_change", Json.arr [])]] :
            List PlanDict).length ([] : PlanDict) = some msg ∧
      load_merge_operations
          ([[("entity_to_change_into", Json.str "A"), ("entities_to_change", Json.arr [])]] ++
            ([] : PlanDict) :: []) = .error msg :=
  claim_C5_amended.2
    [[("entity_to_change_into", Json.str "A"), ("entities_to_change", Json.arr [])]]
    ([] : PlanDict) []
    (by
      intro op hop
      rcases List.mem_singleton.mp hop with rfl
      rfl)
    rfl

/-! ### Claim C6 — retry with exponential backoff in the executor -/

theorem backoff_sleeps_cons (delay factor : ℚ) (k : Nat) :
    delay :: (List.range k).map (fun i => delay * factor * factor ^ i)
      = (List.range (k + 1)).map (fun i => delay * factor ^ i) := by
  rw [List.range_succ_eq_map, List.map_cons, List.map_map]
  refine congrArg₂ List.cons ?_ ?_
  · simp
  · refine List.map_congr_left ?_
    intro i _
    show delay * factor * factor ^ i = delay * factor ^ (i + 1)
    ring

theorem retryFrom_ok {ε α : Type} (f : Nat → Except ε α) (es : Nat → ε) (a : α)
    (factor : ℚ) :
    ∀ (k : Nat) (start : Nat) (remaining : Nat) (delay : ℚ), k < remaining →
      (∀ i, i < k → f (start + i) = .error (es (start + i))) →
      f (start + k) = .ok a →
      retryFrom f factor start remaining delay
        = ⟨.ok a, (List.range k).map (fun i => delay * factor ^ i), k + 1⟩ := by
  intro k
  induction k with
  | zero =>
    intro start remaining delay hk _ hok
    rcases remaining with _ | m
    · omega
    · show retryFrom f factor start (m + 1) delay = _
      unfold retryFrom
      rw [show start + 0 = start from rfl] at hok
      rw [hok]
      simp
  | succ k ih =>
    intro start remaining delay hk herr hok
    rcases remaining with _ | m
    · omega
    · have hm : ¬(m = 0) := by omega
      show retryFrom f factor start (m + 1) delay = _
      unfold retryFrom
      rw [show f start = .error (es start) from by simpa using herr 0 (by omega)]
      show (if m = 0 then (⟨RetryResult.err (es start), [], 1⟩ : RetryOutcome ε α)
            else
              let rest := retryFrom f factor (start + 1) m (delay * factor)
              ⟨rest.result, delay :: rest.sleeps, rest.attempts + 1⟩) = _
      rw [if_neg hm]
      have hrec := ih (start + 1) m (delay * factor) (by omega)
        (fun i hi => by
          have := herr (i + 1) (by omega)
          rwa [show start + (i + 1) = start + 1 + i from by omega] at this)
        (by rwa [show start + 1 + k = start + (k + 1) from by omega])
      rw [hrec]
      show (⟨RetryResult.ok a,
              delay :: (List.range k).map (fun i => delay * factor * factor ^ i),
              (k + 1) + 1⟩ : RetryOutcome ε α) = _
      rw [backoff_sleeps_cons]

theorem retryFrom_err {ε α : Type} (f : Nat → Except ε α) (es : Nat → ε)
    (factor : ℚ) :
    ∀ (n : Nat) (start : Nat) (delay : ℚ), 0 < n →
      (∀ i, i < n → f (start + i) = .error (es (start + i))) →
      retryFrom f factor start n delay
        = ⟨.err (es (start + (n - 1))),
           (List.range (n - 1)).map (fun i => delay * factor ^ i), n⟩ := by
  intro n
  induction n with
  | zero => omega
  | succ m ih =>
    intro start delay _ herr
    show retryFrom f factor start (m + 1) delay = _
    unfold retryFrom
    rw [show f start = .error (es start) from by simpa using herr 0 (by omega)]
    rcases Nat.eq_zero_or_pos m with rfl | hm
    · show (if 0 = 0 then (⟨RetryResult.err (es start), [], 1⟩ : RetryOutcome ε α)
            else _) = _
      rw [if_pos rfl]
      simp
    · show (if m = 0 then (⟨RetryResult.err (es start), [], 1⟩ : RetryOutcome ε α)
            else
              let rest := retryFrom f factor (start + 1) m (delay * factor)
              ⟨rest.result, delay :: rest.sleeps, rest.attempts + 1⟩) = _
      rw [if_neg (by omega)]
      have hrec := ih (start + 1) (delay * factor) hm
        (fun i hi => by
          have := herr (i + 1) (by omega)
          rwa [show start + (i + 1) = start + 1 + i from by omega] at this)
      rw [hrec]
      show (⟨RetryResult.err (es (start + 1 + (m - 1))),
              delay :: (List.range (m - 1)).map (fun i => delay * factor * factor ^ i),
              m + 1⟩ : RetryOutcome ε α) = _
      rw [show start + 1 + (m - 1) = start + (m + 1 - 1) from by omega,
        show m + 1 - 1 = (m - 1) + 1 from by omega, ← backoff_sleeps_cons]

theorem executeOp_merge_ok {client : LightRAGApi} {n : Nat} {op : ExecOp}
    {resp : MergeResponse} {sl : List ℚ} {att : Nat}
    (hm : retry_with_backoff (client.merge op.entities_to_change op.entity_to_change_into)
        n 1 2 = ⟨.ok resp, sl, att⟩) :
    (executeOp client n false op).1.status = OpStatus.success
    ∧ (executeOp client n false op).1.message = some (resp.message.getD "Success") := by
  rcases hn : op.normalized_name with _ | nn
  · simp [executeOp, hm, hn]
  · refine ⟨?_, ?_⟩ <;>
      (simp only [executeOp, hm, hn, Bool.false_eq_true, if_false]
       split <;> first
        | rfl
        | (split <;> rfl))

theorem executeOp_merge_err {client : LightRAGApi} {n : Nat} {op : ExecOp}
    {e : String} {sl : List ℚ} {att : Nat}
    (hm : retry_with_backoff (client.merge op.entities_to_change op.entity_to_change_into)
        n 1 2 = ⟨.err e, sl, att⟩) :
    (executeOp client n false op).1.status = OpStatus.failed
    ∧ (executeOp client n false op).1.message = some e := by
  refine ⟨?_, ?_⟩ <;> simp [executeOp, hm]

theorem execute_cons (client : LightRAGApi) (n : Nat) (d : Bool) (op : ExecOp)
    (ops : List ExecOp) :
    (execute_merge_operations client (op :: ops) n d).1.details
      = (executeOp client n d op).1 :: (execute_merge_operations client ops n d).1.details
    ∧ (execute_merge_operations client (op :: ops) n d).1.failed
      = (if isFailedStatus (executeOp client n d op).1.status then 1 else 0)
        + (execute_merge_operations client ops n d).1.failed
    ∧ (execute_merge_operations client (op :: ops) n d).1.successful
      = (if isSuccessStatus (executeOp client n d op).1.status then 1 else 0)
        + (execute_merge_operations client ops n d).1.successful := by
  refine ⟨rfl, ?_, ?_⟩ <;>
    (show (List.filter _ (_ :: _)).length = _
     rw [List.filter_cons]
     split
     · simp only [List.length_cons]
       exact Nat.add_comm _ 1
     · simp only [Nat.zero_add]
       rfl)

/-- Claim C6: retries use exponential backoff — the sleep after failing
attempt `i` (counted from 0) is `initial_delay * backoff_factor ^ i`; a call
failing on every attempt but the last is recorded `success` with no failure
entry, a call failing on all `max_attempts` attempts is recorded `failed`
with the last exception's message, and in either case processing continues
with the next operation.  The executor invokes `retry_with_backoff` with
the defaults `initial_delay = 1.0`, `backoff_factor = 2.0`. -/
theorem claim_C6_retry_backoff :
    (∀ (ε α : Type) (f : Nat → Except ε α) (es : Nat → ε) (a : α)
        (initial_delay backoff_factor : ℚ) (max_attempts k : Nat),
      k < max_attempts →
      (∀ i, i < k → f i = .error (es i)) →
      f k = .ok a →
      retry_with_backoff f max_attempts initial_delay backoff_factor
        = ⟨.ok a, (List.range k).map (fun i => initial_delay * backoff_factor ^ i), k + 1⟩)
    ∧ (∀ (ε α : Type) (f : Nat → Except ε α) (es : Nat → ε)
        (initial_delay backoff_factor : ℚ) (max_attempts : Nat),
      0 < max_attempts →
      (∀ i, i < max_attempts → f i = .error (es i)) →
      retry_with_backoff f max_attempts initial_delay backoff_factor
        = ⟨.err (es (max_attempts - 1)),
           (List.range (max_attempts - 1)).map
             (fun i => initial_delay * backoff_factor ^ i),
           max_attempts⟩)
    ∧ (∀ (client : LightRAGApi) (n : Nat) (op : ExecOp) (resp : MergeResponse)
        (sl : List ℚ) (att : Nat),
      retry_with_backoff (client.merge op.entities_to_change op.entity_to_change_into)
          n 1 2 = ⟨.ok resp, sl, att⟩ →
      (executeOp client n false op).1.status = OpStatus.success
      ∧ (execute_merge_operations client [op] n false).1.successful = 1
      ∧ (execute_merge_operations client [op] n false).1.failed = 0)
    ∧ (∀ (client : LightRAGApi) (n : Nat) (op : ExecOp) (e : String)
        (sl : List ℚ) (att : Nat),
      retry_with_backoff (client.merge op.entities_to_change op.entity_to_change_into)
          n 1 2 = ⟨.err e, sl, att⟩ →
      (executeOp client n false op).1.status = OpStatus.failed
      ∧ (executeOp client n false op).1.message = some e
      ∧ (execute_merge_operations client [op] n false).1.failed = 1)
    ∧ (∀ (client : LightRAGApi) (n : Nat) (d : Bool) (op : ExecOp) (ops : List ExecOp),
      (execute_merge_operations client (op :: ops) n d).1.details
        = (executeOp client n d op).1 :: (execute_merge_operations client ops n d).1.details
      ∧ (execute_merge_operations client (op :: ops) n d).1.failed
        = (if isFailedStatus (executeOp client n d op).1.status then 1 else 0)
          + (execute_merge_operations client ops n d).1.failed) := by
  refine ⟨?_, ?_, ?_, ?_, ?_⟩
  · intro ε α f es a initial_delay backoff_factor max_attempts k hk herr hok
    unfold retry_with_backoff
    exact retryFrom_ok f es a backoff_factor k 0 max_attempts initial_delay hk
      (fun i hi => by simpa using herr i hi) (by simpa using hok)
  · intro ε α f es initial_delay backoff_factor max_attempts hpos herr
    unfold retry_with_backoff
    have := retryFrom_err f es backoff_factor max_attempts 0 initial_delay hpos
      (fun i hi => by simpa using herr i hi)
    simpa using this
  · intro client n op resp sl att hm
    have h := executeOp_merge_ok hm
    refine ⟨h.1, ?_, ?_⟩ <;>
      (show (List.filter _ [_]).length = _
       rw [List.filter_singleton]
       simp [h.1, isSuccessStatus, isFailedStatus])
  · intro client n op e sl att hm
    have h := executeOp_merge_err hm
    refine ⟨h.1, h.2, ?_⟩
    show (List.filter _ [_]).length = _
    rw [List.filter_singleton]
    simp [h.1, isFailedStatus]
  · intro client n d op ops
    exact ⟨(execute_cons client n d op ops).1, (execute_cons client n d op ops).2.1⟩

/-- Witness for `claim_C6_retry_backoff`: a call failing all three default
attempts sleeps `1.0 * 2.0 ^ 0` then `1.0 * 2.0 ^ 1` and reports the last
error. -/
theorem claim_C6_retry_backoff_witness :
    retry_with_backoff (fun _ => (.error "boom" : Except String MergeResponse)) 3 1 2
      = ⟨.err "boom", (List.range 2).map (fun i => (1 : ℚ) * 2 ^ i), 3⟩ :=
  claim_C6_retry_backoff.2.1 String MergeResponse (fun _ => .error "boom")
    (fun _ => "boom") 1 2 3 (by omega) (fun _ _ => rfl)

/-! ### Claim C4 — merge failures of the "not found" class -/

/-- An API whose merge endpoint always answers 404: `merge_entities` raises
`aiohttp.ClientError` with the status in the message, like any non-200. -/
def notFoundClient : LightRAGApi :=
  { merge := fun _ _ _ => .error "API returned status 404: entity not found"
    edit := fun _ _ _ _ => .ok { message := none } }

/-- Claim C4 counterexample: a merge whose entities no longer exist fails
with a 404-carrying `ClientError` on every attempt; the executor retries it
like any exception and then counts the operation under `failed` — there is
no benign "already satisfied" mapping. -/
theorem claim_C4_counterexample :
    (execute_merge_operations notFoundClient
        [{ entity_to_change_into := "CV", entities_to_change := ["CV_001"],
           entity_type := some "CV", normalized_name := none }] 3 false).1.failed = 1
    ∧ ((execute_merge_operations notFoundClient
        [{ entity_to_change_into := "CV", entities_to_change := ["CV_001"],
           entity_type := some "CV", normalized_name := none }] 3 false).1.details.map
          (fun r => r.status)) = [OpStatus.failed]
    ∧ (execute_merge_operations notFoundClient
        [{ entity_to_change_into := "CV", entities_to_change := ["CV_001"],
           entity_type := some "CV", normalized_name := none }] 3 false).1.successful = 0 :=
  ⟨rfl, rfl, rfl⟩

/-- Claim C4 as amended: a merge call that fails with a "not found"-class
error (or any other exception) on every attempt is NOT treated as benign:
after the retries are exhausted the operation is recorded `failed`, with
the last exception's message, and counted in the report's `failed` total. -/
theorem claim_C4_amended :
    ∀ (client : LightRAGApi) (op : ExecOp) (n : Nat) (es : Nat → String),
      0 < n →
      (∀ i, client.merge op.entities_to_change op.entity_to_change_into i = .error (es i)) →
      (executeOp client n false op).1.status = OpStatus.failed
      ∧ (executeOp client n false op).1.message = some (es (n - 1))
      ∧ (execute_merge_operations client [op] n false).1.failed = 1 := by
  intro client op n es hpos herr
  have hm : retry_with_backoff (client.merge op.entities_to_change op.entity_to_change_into)
      n 1 2 = ⟨.err (es (n - 1)), (List.range (n - 1)).map (fun i => (1 : ℚ) * 2 ^ i), n⟩ := by
    unfold retry_with_backoff
    have := retryFrom_err (client.merge op.entities_to_change op.entity_to_change_into)
      es 2 n 0 1 hpos (fun i _ => by simpa using herr i)
    simpa using this
  have h := executeOp_merge_err hm
  refine ⟨h.1, h.2, ?_⟩
  show (List.filter _ [_]).length = _
  rw [List.filter_singleton]
  simp [h.1, isFailedStatus]

/-- Witness for `claim_C4_amended` at the always-404 client. -/
theorem claim_C4_amended_witness :
    (executeOp notFoundClient 3 false
        { entity_to_change_into := "CV", entities_to_change := ["CV_001"],
          entity_type := some "CV", normalized_name := none }).1.status = OpStatus.failed
    ∧ (executeOp notFoundClient 3 false
        { entity_to_change_into := "CV", entities_to_change := ["CV_001"],
          entity_type := some "CV", normalized_name := none }).1.message
        = some "API returned status 404: entity not found"
    ∧ (execute_merge_operations notFoundClient
        [{ entity_to_change_into := "CV", entities_to_change := ["CV_001"],
           entity_type := some "CV", normalized_name := none }] 3 false).1.failed = 1 :=
  claim_C4_amended notFoundClient
    { entity_to_change_into := "CV", entities_to_change := ["CV_001"],
      entity_type := some "CV", normalized_name := none } 3
    (fun _ => "API returned status 404: entity not found") (by omega) (fun _ => rfl)

/-! ### Claim C9 — dry-run issues no API call and writes no report -/

theorem executeList_dry (client : LightRAGApi) (n : Nat) :
    ∀ ops : List ExecOp,
      executeList client n true ops
        = (ops.map (fun op => (executeOp client n true op).1), [], []) := by
  intro ops
  induction ops with
  | nil => rfl
  | cons op rest ih =>
    show (_, _ ++ _, _ ++ _) = _
    rw [ih]
    rfl

/-- Claim C9: in dry-run mode the executor issues no API call at all (no
merge, no edit), performs no back-off sleep, records every operation with
the `dry_run` status, and `main` writes no report file. -/
theorem claim_C9_dry_run :
    ∀ (client : LightRAGApi) (ops : List ExecOp) (n : Nat),
      (execute_merge_operations client ops n true).2.1 = []
      ∧ (execute_merge_operations client ops n true).2.2 = []
      ∧ (execute_merge_operations client ops n true).1.details.length = ops.length
      ∧ (∀ r ∈ (execute_merge_operations client ops n true).1.details,
          r.status = OpStatus.dry_run)
      ∧ main_saves_report true = false := by
  intro client ops n
  have hd : (execute_merge_operations client ops n true).1.details
      = ops.map (fun op => (executeOp client n true op).1) := by
    show (executeList client n true ops).1 = _
    rw [executeList_dry]
  refine ⟨?_, ?_, ?_, ?_, rfl⟩
  · show (executeList client n true ops).2.1 = []
    rw [executeList_dry]
  · show (executeList client n true ops).2.2 = []
    rw [executeList_dry]
  · rw [hd, List.length_map]
  · intro r hr
    rw [hd] at hr
    rcases List.mem_map.mp hr with ⟨op, -, rfl⟩
    rfl

/-! ### Claim C10 — `normalized_name` is the normalized key, and the
    post-merge rename -/

theorem map_fixes_of_eq_self {α : Type} {f : α → α} :
    ∀ {l : List α}, l.map f = l → ∀ a ∈ l, f a = a := by
  intro l
  induction l with
  | nil => simp
  | cons x xs ih =>
    intro h a ha
    rw [List.map_cons, List.cons.injEq] at h
    rcases List.mem_cons.mp ha with rfl | ha
    · exact h.1
    · exact ih h.2 a ha

theorem retryFrom_attempts_pos {ε α : Type} (f : Nat → Except ε α) (factor : ℚ)
    (start : Nat) (delay : ℚ) :
    ∀ remaining : Nat, 0 < remaining →
      0 < (retryFrom f factor start remaining delay).attempts := by
  intro remaining h
  rcases remaining with _ | m
  · omega
  · unfold retryFrom
    rcases hf : f start with e | a
    · split
      · simp
      · split <;> simp
    · simp

/-- The always-succeeding API used for the C10 counterexample. -/
def okClient : LightRAGApi :=
  { merge := fun _ _ _ => .ok { message := none, relationships_transferred := none }
    edit := fun _ _ _ _ => .ok { message := none } }

/-- Claim C10 counterexample: for the group `{"_", "-"}` the survivor
`"_"` contains a separator and its normalized key is the EMPTY string;
`normalized_name` differs from the survivor, yet the executor issues no
edit call because Python's `if normalized_name and ...` treats the empty
string as falsy — the rename step is skipped, contradicting the claim's
"will rename" consequence. -/
theorem claim_C10_counterexample :
    (identify_duplicates_by_normalization [⟨"_", "T", 1⟩, ⟨"-", "T", 0⟩] false []).map
        (fun op => op.entity_to_change_into) = ["_"]
    ∧ (identify_duplicates_by_normalization [⟨"_", "T", 1⟩, ⟨"-", "T", 0⟩] false []).map
        (fun op => op.normalized_name) = [""]
    ∧ ("_" : String) ≠ ""
    ∧ (∃ c ∈ ("_" : String).data, isSeparatorChar c = true)
    ∧ (execute_merge_operations okClient
        ((identify_duplicates_by_normalization [⟨"_", "T", 1⟩, ⟨"-", "T", 0⟩] false []).map
          execOpOf) 3 false).2.1 = [ApiCall.mergeCall ["-"] "_"] := by
  refine ⟨by decide, by decide, by decide, by decide, by decide⟩

/-- Claim C10 as amended: (1) in both modes every produced operation's
`normalized_name` equals `normalize_entity_name(entity_to_change_into)` —
the squashed lowercase key, never an external display form; (2) a survivor
name containing an uppercase basic-latin letter or a separator is changed
by normalization; (3) whenever the merge succeeds and the operation's
`normalized_name` is a NON-EMPTY string different from the survivor, the
executor issues the follow-up edit call renaming the survivor to that key
(the empty key of the counterexample is the only escape, via Python
falsiness). -/
theorem claim_C10_amended :
    (∀ (entities : List Entity) (mode : Bool) (targets : List String)
        (op : MergeOperation),
      op ∈ identify_duplicates_by_normalization entities mode targets →
      op.normalized_name = normalize_entity_name op.entity_to_change_into)
    ∧ (∀ s : String,
        (∃ c ∈ s.data, isSeparatorChar c = true ∨ (65 ≤ c.toNat ∧ c.toNat ≤ 90)) →
        normalize_entity_name s ≠ s)
    ∧ (∀ (client : LightRAGApi) (n : Nat) (op : ExecOp) (nn : String)
        (resp : MergeResponse) (sl : List ℚ) (att : Nat),
      0 < n →
      op.normalized_name = some nn →
      nn ≠ "" →
      nn ≠ op.entity_to_change_into →
      retry_with_backoff (client.merge op.entities_to_change op.entity_to_change_into)
          n 1 2 = ⟨.ok resp, sl, att⟩ →
      ApiCall.editCall op.entity_to_change_into nn (op.entity_type.getD "UNKNOWN")
        ∈ (executeOp client n false op).2.1) := by
  refine ⟨?_, ?_, ?_⟩
  · intro entities mode targets op hop
    unfold identify_duplicates_by_normalization at hop
    cases mode with
    | true =>
      rw [if_pos rfl] at hop
      rcases List.mem_filterMap.mp hop with ⟨k, -, hk⟩
      have hname := cross_opNames_key hk op.entity_to_change_into
        (List.mem_cons_self _ _)
      have hkey : op.normalized_name = k := by
        rcases crossOpForKey_some hk with ⟨-, c, rest, -, rfl⟩
        rfl
      rw [hkey, ← hname]
    | false =>
      rw [if_neg (by simp)] at hop
      rcases List.mem_filterMap.mp hop with ⟨k, -, hk⟩
      have hname := (same_opNames_key hk).1 op.entity_to_change_into
        (List.mem_cons_self _ _)
      have hkey : op.normalized_name = k.1 := by
        rcases sameOpForKey_some hk with ⟨-, c, rest, -, rfl⟩
        rfl
      rw [hkey, ← hname]
  · intro s hex h
    have hl : ((s.data.map lowerChar).filter (fun c => !isSeparatorChar c)) = s.data :=
      congrArg String.data h
    have hfe : ((s.data.map lowerChar).filter (fun c => !isSeparatorChar c))
        = s.data.map lowerChar :=
      (List.filter_sublist _).eq_of_length (by rw [hl, List.length_map])
    have hmapeq : s.data.map lowerChar = s.data := by
      rw [← hfe, hl]
    rcases hex with ⟨c, hc, hsep | hupper⟩
    · have hall := List.filter_eq_self.mp hfe
      have : (!isSeparatorChar c) = true := hall c (by rw [hmapeq]; exact hc)
      simp [hsep] at this
    · have hfix := map_fixes_of_eq_self hmapeq c hc
      have htn := lowerChar_toNat c
      rw [if_pos hupper, hfix] at htn
      omega
  · intro client n op nn resp sl att hn hnn hne1 hne2 hm
    have hc : (!(nn == "") && !(nn == op.entity_to_change_into)) = true := by
      simp [hne1, hne2]
    simp only [executeOp, hm, hnn, Bool.false_eq_true, if_false, hc, if_true]
    rcases he : (retry_with_backoff
        (client.edit op.entity_to_change_into nn (op.entity_type.getD "UNKNOWN"))
        n 1 2).result with uresp | ue
    · simp only [he]
      refine List.mem_append_right _ ?_
      refine List.mem_map.mpr ⟨0, List.mem_range.mpr ?_, rfl⟩
      exact retryFrom_attempts_pos _ 2 0 1 n hn
    · simp only [he]
      refine List.mem_append_right _ ?_
      refine List.mem_map.mpr ⟨0, List.mem_range.mpr ?_, rfl⟩
      exact retryFrom_attempts_pos _ 2 0 1 n hn
    · simp only [he]
      refine List.mem_append_right _ ?_
      refine List.mem_map.mpr ⟨0, List.mem_range.mpr ?_, rfl⟩
      exact retryFrom_attempts_pos _ 2 0 1 n hn

/-- Witness for `claim_C10_amended`: a successful merge with a differing
non-empty `normalized_name` triggers the rename call. -/
theorem claim_C10_amended_witness :
    ApiCall.editCall "CV_001" "cv001" "CV"
      ∈ (executeOp okClient 3 false
          { entity_to_change_into := "CV_001", entities_to_change := ["cv_001"],
            entity_type := some "CV", normalized_name := some "cv001" }).2.1 :=
  claim_C10_amended.2.2 okClient 3
    { entity_to_change_into := "CV_001", entities_to_change := ["cv_001"],
      entity_type := some "CV", normalized_name := some "cv001" }
    "cv001" { message := none, relationships_transferred := none }
    [] 1 (by omega) rfl (by decide) (by decide) rfl

/-! ### Claim C7 — deletion retry policy (clean_list.py lines 101-290) -/

/-- The outcome classification of one `delete_entity` call: HTTP 200 →
`success`, 404 → `not_found`, other 4xx → `client_error`, other statuses →
`server_error`, `httpx.HTTPError` → `network_error`. -/
inductive DeleteOutcome where
  | success
  | not_found
  | client_error
  | server_error
  | network_error
deriving DecidableEq

/-- The `for retry_count in range(max_retries + 1)` loop of
`delete_with_retry`, with the per-attempt outcome oracle `f`:
`remaining` counts the iterations still allowed after the current one
(`max_retries - retry_count`), and the returned list is the back-off
sleeps `2 ** retry_count` performed.  `success`, `not_found` and
`client_error` return immediately; on a retryable outcome of the final
iteration the loop exits returning the last error type. -/
def deleteLoop (f : Nat → DeleteOutcome) : Nat → Nat → (Bool × DeleteOutcome) × List Nat
  | rc, 0 =>
    match f rc with
    | .success => ((true, .success), [])
    | .not_found => ((false, .not_found), [])
    | .client_error => ((false, .client_error), [])
    | out => ((false, out), [])
  | rc, r + 1 =>
    match f rc with
    | .success => ((true, .success), [])
    | .not_found => ((false, .not_found), [])
    | .client_error => ((false, .client_error), [])
    | _ =>
      let rest := deleteLoop f (rc + 1) r
      (rest.1, 2 ^ rc :: rest.2)

/-- `delete_with_retry(entity_name, client, max_retries)`. -/
def delete_with_retry (f : Nat → DeleteOutcome) (max_retries : Nat) :
    (Bool × DeleteOutcome) × List Nat :=
  deleteLoop f 0 max_retries

/-- The per-run counters of `main`. -/
structure DeleteStats where
  total : Nat
  deleted : Nat
  not_found : Nat
  failed : Nat
  client_errors : Nat
  server_errors : Nat
  network_errors : Nat
deriving DecidableEq

/-- How `main` folds one `delete_with_retry` result into the statistics
(clean_list.py lines 259-272): success → `deleted`; `not_found` →
`not_found` only; every other failure → `failed` plus its error-class
counter. -/
def recordDeleteResult (stats : DeleteStats) (r : Bool × DeleteOutcome) : DeleteStats :=
  if r.1 then { stats with deleted := stats.deleted + 1 }
  else
    match r.2 with
    | .not_found => { stats with not_found := stats.not_found + 1 }
    | .client_error =>
      { stats with failed := stats.failed + 1, client_errors := stats.client_errors + 1 }
    | .server_error =>
      { stats with failed := stats.failed + 1, server_errors := stats.server_errors + 1 }
    | .network_error =>
      { stats with failed := stats.failed + 1, network_errors := stats.network_errors + 1 }
    | .success => { stats with failed := stats.failed + 1 }

theorem deleteLoop_retryable_all {f : Nat → DeleteOutcome} {out : DeleteOutcome}
    (hout : out = DeleteOutcome.server_error ∨ out = DeleteOutcome.network_error)
    (hall : ∀ i, f i = out) :
    ∀ (remaining rc : Nat),
      deleteLoop f rc remaining
        = ((false, out), (List.range remaining).map (fun i => 2 ^ (rc + i))) := by
  intro remaining
  induction remaining with
  | zero =>
    intro rc
    unfold deleteLoop
    rw [hall rc]
    rcases hout with rfl | rfl <;> rfl
  | succ r ih =>
    intro rc
    unfold deleteLoop
    rw [hall rc]
    have hrec := ih (rc + 1)
    rcases hout with rfl | rfl <;>
      (show (_, (2 : Nat) ^ rc :: _) = _
       rw [hrec, List.range_succ_eq_map, List.map_cons, List.map_map]
       refine congrArg _ ?_
       refine congrArg₂ List.cons (by rw [Nat.add_zero]) ?_
       refine List.map_congr_left ?_
       intro i _
       show 2 ^ (rc + 1 + i) = 2 ^ (rc + (i + 1))
       rw [show rc + 1 + i = rc + (i + 1) from by omega])

/-- Claim C7: `not_found` (404) and `client_error` (other 4xx) are terminal
— returned after the first call with no back-off sleep, whatever
`max_retries` is — and `main` counts 404 under `not_found`, not under
`failed`, while `client_error` goes to `failed`/`client_errors`;
`server_error` (5xx) and `network_error` are retried with back-off sleeps
`2 ^ retry_count` up to `max_retries` retries, a mid-sequence success being
returned as such, and a full failure being counted under `failed` with the
matching error-class counter. -/
theorem claim_C7_delete_retry_policy :
    (∀ (f : Nat → DeleteOutcome) (mr : Nat), f 0 = DeleteOutcome.not_found →
      delete_with_retry f mr = ((false, DeleteOutcome.not_found), []))
    ∧ (∀ (f : Nat → DeleteOutcome) (mr : Nat), f 0 = DeleteOutcome.client_error →
      delete_with_retry f mr = ((false, DeleteOutcome.client_error), []))
    ∧ (∀ s : DeleteStats,
      (recordDeleteResult s (false, DeleteOutcome.not_found)).not_found = s.not_found + 1
      ∧ (recordDeleteResult s (false, DeleteOutcome.not_found)).failed = s.failed
      ∧ (recordDeleteResult s (false, DeleteOutcome.client_error)).failed = s.failed + 1
      ∧ (recordDeleteResult s (false, DeleteOutcome.client_error)).client_errors
          = s.client_errors + 1)
    ∧ (∀ (f : Nat → DeleteOutcome) (mr : Nat),
      (∀ i, f i = DeleteOutcome.server_error) →
      delete_with_retry f mr
        = ((false, DeleteOutcome.server_error), (List.range mr).map (fun i => 2 ^ i)))
    ∧ (∀ (f : Nat → DeleteOutcome) (mr : Nat),
      (∀ i, f i = DeleteOutcome.network_error) →
      delete_with_retry f mr
        = ((false, DeleteOutcome.network_error), (List.range mr).map (fun i => 2 ^ i)))
    ∧ (∀ s : DeleteStats,
      (recordDeleteResult s (false, DeleteOutcome.server_error)).failed = s.failed + 1
      ∧ (recordDeleteResult s (false, DeleteOutcome.server_error)).server_errors
          = s.server_errors + 1
      ∧ (recordDeleteResult s (false, DeleteOutcome.network_error)).failed = s.failed + 1
      ∧ (recordDeleteResult s (false, DeleteOutcome.network_error)).network_errors
          = s.network_errors + 1
      ∧ (recordDeleteResult s (false, DeleteOutcome.server_error)).not_found = s.not_found)
    ∧ (∀ (f : Nat → DeleteOutcome) (mr : Nat), 0 < mr →
      f 0 = DeleteOutcome.server_error → f 1 = DeleteOutcome.success →
      delete_with_retry f mr = ((true, DeleteOutcome.success), [1])) := by
  refine ⟨?_, ?_, ?_, ?_, ?_, ?_, ?_⟩
  · intro f mr h
    unfold delete_with_retry
    rcases mr with _ | m <;> (unfold deleteLoop; rw [h])
  · intro f mr h
    unfold delete_with_retry
    rcases mr with _ | m <;> (unfold deleteLoop; rw [h])
  · intro s
    refine ⟨rfl, rfl, rfl, rfl⟩
  · intro f mr hall
    unfold delete_with_retry
    rw [deleteLoop_retryable_all (Or.inl rfl) hall mr 0]
    simp
  · intro f mr hall
    unfold delete_with_retry
    rw [deleteLoop_retryable_all (Or.inr rfl) hall mr 0]
    simp
  · intro s
    refine ⟨rfl, rfl, rfl, rfl, rfl⟩
  · intro f mr hpos h0 h1
    unfold delete_with_retry
    rcases mr with _ | m
    · omega
    · unfold deleteLoop
      rw [h0]
      have hrest : deleteLoop f (0 + 1) m = ((true, DeleteOutcome.success), []) := by
        rcases m with _ | m' <;>
          (unfold deleteLoop
           rw [show f (0 + 1) = DeleteOutcome.success from h1])
      show (let rest := deleteLoop f (0 + 1) m; (rest.1, 2 ^ 0 :: rest.2))
          = ((true, DeleteOutcome.success), [1])
      rw [hrest]
      rfl

/-- Witness for `claim_C7_delete_retry_policy`: a delete that keeps
answering 503 with `max_retries = 3` sleeps `1, 2, 4` seconds and ends in
`server_error`. -/
theorem claim_C7_delete_retry_policy_witness :
    delete_with_retry (fun _ => DeleteOutcome.server_error) 3
      = ((false, DeleteOutcome.server_error), (List.range 3).map (fun i => 2 ^ i)) :=
  claim_C7_delete_retry_policy.2.2.2.1 (fun _ => DeleteOutcome.server_error) 3 (fun _ => rfl)
